import Mathlib

/-!
Verification of the transaction-envelope core of `eth_utils`.

The Python source builds typed Ethereum transaction envelopes (EIP-4844
blob transactions, EIP-7702 set-code transactions), computes their
signing hashes, assembles signed payloads, and prepares blob data.

Shallow embedding conventions:
* Byte strings are `List Nat` (each entry one byte value).
* Python unbounded non-negative ints are `Nat`; the one function that can
  go negative (`to_eth_v`) uses `Int`.
* The external hash functions (`keccak` from eth-hash, `sha256` from
  hashlib) are parameters of type `List Nat → List Nat`: every statement
  about a hash output is relative to an arbitrary hash function, with its
  output length (32) as an explicit hypothesis where needed.
* The `rlp.encode` library call is embedded concretely as the standard
  RLP encoding of a tagged tree of byte strings and lists, with Python
  ints serialized as minimal big-endian byte strings (pyrlp's
  `big_endian_int` sedes).
-/

/-- Big-endian digit extraction with an explicit fuel bound (structural
recursion, so the kernel can evaluate it on concrete inputs). The fuel
branch returning `[0]` is unreachable whenever `n ≤ fuel`. -/
def beBytesAux : Nat → Nat → List Nat
  | _, 0 => []
  | 0, _ + 1 => [0]
  | fuel + 1, n + 1 => beBytesAux fuel ((n + 1) / 256) ++ [(n + 1) % 256]

/-- Minimal big-endian byte representation of a natural number.
`0` maps to the empty string (pyrlp `big_endian_int` convention). -/
def beBytes (n : Nat) : List Nat := beBytesAux n n

theorem beBytesAux_fuel : ∀ n f g : Nat, n ≤ f → n ≤ g → beBytesAux f n = beBytesAux g n := by
  intro n
  induction n using Nat.strong_induction_on with
  | _ n ih =>
    intro f g hf hg
    rcases n with _ | m
    · simp [beBytesAux]
    · rcases f with _ | f'
      · omega
      · rcases g with _ | g'
        · omega
        · simp only [beBytesAux]
          have hlt : (m + 1) / 256 < m + 1 := Nat.div_lt_self (Nat.succ_pos m) (by norm_num)
          rw [ih ((m + 1) / 256) hlt f' g' (by omega) (by omega)]

/-- Big-endian value of a byte string. -/
def beVal : List Nat → Nat
  | [] => 0
  | b :: rest => b * 256 ^ rest.length + beVal rest

/-- RLP-encodable values: byte strings and nested lists. -/
inductive RLPItem where
  | bytes : List Nat → RLPItem
  | list : List RLPItem → RLPItem

mutual
/-- Boolean equality test on RLP items. -/
def RLPItem.beq : RLPItem → RLPItem → Bool
  | .bytes a, .bytes b => decide (a = b)
  | .list a, .list b => RLPItem.beqList a b
  | _, _ => false

/-- Boolean equality test on lists of RLP items. -/
def RLPItem.beqList : List RLPItem → List RLPItem → Bool
  | [], [] => true
  | x :: xs, y :: ys => RLPItem.beq x y && RLPItem.beqList xs ys
  | _, _ => false
end

mutual
theorem RLPItem.beq_iff : ∀ a b : RLPItem, RLPItem.beq a b = true ↔ a = b
  | .bytes a, .bytes b => by simp [RLPItem.beq]
  | .bytes _, .list _ => by simp [RLPItem.beq]
  | .list _, .bytes _ => by simp [RLPItem.beq]
  | .list a, .list b => by
    simp only [RLPItem.beq, RLPItem.beqList_iff a b, RLPItem.list.injEq]

theorem RLPItem.beqList_iff : ∀ a b : List RLPItem, RLPItem.beqList a b = true ↔ a = b
  | [], [] => by simp [RLPItem.beqList]
  | [], _ :: _ => by simp [RLPItem.beqList]
  | _ :: _, [] => by simp [RLPItem.beqList]
  | x :: xs, y :: ys => by
    simp [RLPItem.beqList, RLPItem.beq_iff x y, RLPItem.beqList_iff xs ys]
end

instance : DecidableEq RLPItem := fun a b =>
  decidable_of_iff _ (RLPItem.beq_iff a b)

/-- A Python int as an RLP item: minimal big-endian byte string. -/
def RLP.ofNat (n : Nat) : RLPItem := .bytes (beBytes n)

/-- RLP length prefix: `base + len` for short payloads (≤ 55 bytes),
otherwise `base + 55 + |beBytes len|` followed by the big-endian length. -/
def encodeLength (base len : Nat) : List Nat :=
  if len ≤ 55 then [base + len]
  else (base + 55 + (beBytes len).length) :: beBytes len

mutual
/-- RLP encoding of one item (the `rlp.encode` library call). -/
def rlpEncode : RLPItem → List Nat
  | .bytes [c] => if c < 128 then [c] else encodeLength 128 1 ++ [c]
  | .bytes b => encodeLength 128 b.length ++ b
  | .list items =>
    let payload := rlpEncodeList items
    encodeLength 192 payload.length ++ payload

/-- Concatenated RLP encodings of a sequence of items (a list payload). -/
def rlpEncodeList : List RLPItem → List Nat
  | [] => []
  | x :: xs => rlpEncode x ++ rlpEncodeList xs
end

-- Basic facts about the big-endian conversion.

theorem beBytes_pos (n : Nat) (h : 0 < n) :
    beBytes n = beBytes (n / 256) ++ [n % 256] := by
  rcases n with _ | m
  · omega
  · show beBytesAux (m + 1) (m + 1) = beBytes ((m + 1) / 256) ++ [(m + 1) % 256]
    simp only [beBytesAux, beBytes]
    congr 1
    exact beBytesAux_fuel ((m + 1) / 256) m ((m + 1) / 256)
      (Nat.le_of_lt_succ (Nat.div_lt_self (Nat.succ_pos m) (by norm_num))) (le_refl _)

theorem beVal_append_singleton (l : List Nat) (c : Nat) :
    beVal (l ++ [c]) = beVal l * 256 + c := by
  induction l with
  | nil => simp [beVal]
  | cons b rest ih =>
    have hlen : (rest ++ [c]).length = rest.length + 1 := by simp
    simp only [List.cons_append, beVal, List.append_eq, ih, hlen, pow_succ]
    ring

theorem beVal_beBytes (n : Nat) : beVal (beBytes n) = n := by
  induction n using Nat.strong_induction_on with
  | _ n ih =>
    match n with
    | 0 => simp [beBytes, beBytesAux, beVal]
    | n + 1 =>
      rw [beBytes_pos (n + 1) (Nat.succ_pos n), beVal_append_singleton,
        ih ((n + 1) / 256) (Nat.div_lt_self (Nat.succ_pos n) (by norm_num))]
      omega

theorem beBytes_head_ne_zero (n : Nat) (h : 0 < n) : (beBytes n).headD 0 ≠ 0 := by
  induction n using Nat.strong_induction_on with
  | _ n ih =>
    rw [beBytes_pos n h]
    rcases Nat.lt_or_ge n 256 with hlt | hge
    · rw [Nat.div_eq_of_lt hlt]
      have : n % 256 = n := Nat.mod_eq_of_lt hlt
      simp [beBytes, beBytesAux, this]
      omega
    · have hdivpos : 0 < n / 256 := Nat.div_pos hge (by norm_num)
      have hne : beBytes (n / 256) ≠ [] := by
        rw [beBytes_pos _ hdivpos]
        simp
      obtain ⟨a, t, hat⟩ := List.exists_cons_of_ne_nil hne
      have hhead := ih (n / 256) (Nat.div_lt_self h (by norm_num)) hdivpos
      rw [hat] at hhead ⊢
      simpa using hhead

theorem beBytes_length_pos (n : Nat) (h : 0 < n) : 0 < (beBytes n).length := by
  rw [beBytes_pos n h]
  simp

mutual
/-- Wire-format well-formedness: every byte string and every list payload
is shorter than 2^64 bytes, so its length prefix fits in at most eight
length bytes (the `rlp` library raises `SerializationError` beyond this). -/
def RLPItem.wf : RLPItem → Bool
  | .bytes b => decide (b.length < 2 ^ 64)
  | .list items => decide ((rlpEncodeList items).length < 2 ^ 64) && RLPItem.wfList items

/-- `RLPItem.wf` on every element of a list. -/
def RLPItem.wfList : List RLPItem → Bool
  | [] => true
  | x :: xs => RLPItem.wf x && RLPItem.wfList xs
end

mutual
/-- Modelled from the spec: the repository only encodes (the round-trip
property in the spec refers to decoding the finalized bytes back into the
field list, done by the `rlp` library's decoder, which is not part of the
source tree). This is the strict canonical RLP decoder: it parses one item
from the front of the input, returning it with the unconsumed remainder,
and rejects non-canonical encodings (non-minimal single bytes, padded or
undersized length-of-length fields). `fuel` bounds the recursion depth. -/
def rlpDecodeOne : Nat → List Nat → Option (RLPItem × List Nat)
  | 0, _ => none
  | _ + 1, [] => none
  | fuel + 1, b :: rest =>
    if b < 128 then some (.bytes [b], rest)
    else if b ≤ 183 then
      let len := b - 128
      if rest.length < len then none
      else if len = 1 ∧ (rest.take len).headD 0 < 128 then none
      else some (.bytes (rest.take len), rest.drop len)
    else if b ≤ 191 then
      let lenlen := b - 183
      if rest.length < lenlen then none
      else if (rest.take lenlen).headD 0 = 0 then none
      else
        let len := beVal (rest.take lenlen)
        if len ≤ 55 then none
        else if (rest.drop lenlen).length < len then none
        else some (.bytes ((rest.drop lenlen).take len), (rest.drop lenlen).drop len)
    else if b ≤ 247 then
      let len := b - 192
      if rest.length < len then none
      else
        match rlpDecodeMany fuel (rest.take len) with
        | some items => some (.list items, rest.drop len)
        | none => none
    else
      let lenlen := b - 247
      if rest.length < lenlen then none
      else if (rest.take lenlen).headD 0 = 0 then none
      else
        let len := beVal (rest.take lenlen)
        if len ≤ 55 then none
        else if (rest.drop lenlen).length < len then none
        else
          match rlpDecodeMany fuel ((rest.drop lenlen).take len) with
          | some items => some (.list items, (rest.drop lenlen).drop len)
          | none => none

/-- Modelled from the spec: decode a whole byte string as a sequence of
consecutive RLP items (the payload of a list). -/
def rlpDecodeMany : Nat → List Nat → Option (List RLPItem)
  | _, [] => some []
  | 0, _ :: _ => none
  | fuel + 1, b :: rest =>
    match rlpDecodeOne fuel (b :: rest) with
    | some (x, rem) =>
      match rlpDecodeMany fuel rem with
      | some items => some (x :: items)
      | none => none
    | none => none
end

/-- Modelled from the spec: decode a byte string as exactly one RLP item
with nothing left over. -/
def rlpDecode (input : List Nat) : Option RLPItem :=
  match rlpDecodeOne (2 * input.length) input with
  | some (x, []) => some x
  | _ => none

theorem encodeLength_ne_nil (base len : Nat) : encodeLength base len ≠ [] := by
  unfold encodeLength
  split <;> simp

theorem rlpEncode_ne_nil (x : RLPItem) : rlpEncode x ≠ [] := by
  match x with
  | .bytes [] => simp [rlpEncode, encodeLength]
  | .bytes [c] =>
    rw [rlpEncode]
    split <;> simp [encodeLength]
  | .bytes (c₁ :: c₂ :: b) => simp [rlpEncode, encodeLength]
  | .list items =>
    rw [rlpEncode]
    intro h
    exact absurd (List.append_eq_nil.mp h).1 (encodeLength_ne_nil 192 _)

theorem rlpEncode_length_pos (x : RLPItem) : 0 < (rlpEncode x).length :=
  List.length_pos.mpr (rlpEncode_ne_nil x)

theorem beBytes_length_le (k : Nat) : ∀ n, n < 2 ^ (8 * k) → (beBytes n).length ≤ k := by
  induction k with
  | zero =>
    intro n hn
    simp only [Nat.mul_zero, pow_zero, Nat.lt_one_iff] at hn
    simp [hn, beBytes, beBytesAux]
  | succ k ih =>
    intro n hn
    rcases Nat.eq_zero_or_pos n with h0 | hpos
    · simp [h0, beBytes, beBytesAux]
    · rw [beBytes_pos n hpos]
      have : n / 256 < 2 ^ (8 * k) := by
        apply Nat.div_lt_of_lt_mul
        calc n < 2 ^ (8 * (k + 1)) := hn
        _ = 2 ^ (8 * k) * 256 := by ring
        _ = 256 * 2 ^ (8 * k) := by ring
      have := ih (n / 256) this
      simp only [List.length_append, List.length_cons, List.length_nil]
      omega

theorem encodeLength_short (base len : Nat) (h : len ≤ 55) :
    encodeLength base len = [base + len] := by
  unfold encodeLength
  rw [if_pos h]

theorem encodeLength_long (base len : Nat) (h : ¬ len ≤ 55) :
    encodeLength base len = (base + 55 + (beBytes len).length) :: beBytes len := by
  unfold encodeLength
  rw [if_neg h]

theorem rlpEncode_bytes_eq (b : List Nat) (h1 : b.length ≠ 1) :
    rlpEncode (.bytes b) = encodeLength 128 b.length ++ b := by
  match b with
  | [] => rfl
  | [c] => exact absurd rfl h1
  | c₁ :: c₂ :: t => rfl

theorem rlpEncode_list_eq (items : List RLPItem) :
    rlpEncode (.list items) =
      encodeLength 192 (rlpEncodeList items).length ++ rlpEncodeList items := by
  rfl

theorem rlpDecodeOne_single_small (fuel c : Nat) (rest : List Nat) (hc : c < 128) :
    rlpDecodeOne (fuel + 1) (c :: rest) = some (.bytes [c], rest) := by
  simp [rlpDecodeOne, hc]

theorem rlpDecodeOne_single_big (fuel c : Nat) (rest : List Nat) (hc : 128 ≤ c) :
    rlpDecodeOne (fuel + 1) (129 :: c :: rest) = some (.bytes [c], rest) := by
  have hc' : ¬ c < 128 := Nat.not_lt.mpr hc
  simp [rlpDecodeOne, hc']

theorem rlpDecodeOne_bytes_short (fuel : Nat) (b rest : List Nat)
    (h55 : b.length ≤ 55) (h1 : b.length ≠ 1) :
    rlpDecodeOne (fuel + 1) ((128 + b.length) :: (b ++ rest)) = some (.bytes b, rest) := by
  have c1 : ¬ (128 + b.length < 128) := by omega
  have c2 : 128 + b.length ≤ 183 := by omega
  have c3 : 128 + b.length - 128 = b.length := by omega
  have c4 : ¬ ((b ++ rest).length < b.length) := by
    simp only [List.length_append]
    omega
  simp only [rlpDecodeOne, c1, c2, c3, c4, h1, false_and, if_false, if_true,
    List.take_left, List.drop_left, ite_true, ite_false]

theorem rlpDecodeOne_bytes_long (fuel : Nat) (b rest : List Nat)
    (h56 : ¬ b.length ≤ 55) (h64 : b.length < 2 ^ 64) :
    rlpDecodeOne (fuel + 1)
      ((128 + 55 + (beBytes b.length).length) :: (beBytes b.length ++ (b ++ rest))) =
      some (.bytes b, rest) := by
  have hpos : 0 < b.length := by omega
  have hll1 : 1 ≤ (beBytes b.length).length := beBytes_length_pos _ hpos
  have hll8 : (beBytes b.length).length ≤ 8 := by
    apply beBytes_length_le 8
    norm_num
    exact h64
  have c1 : ¬ (128 + 55 + (beBytes b.length).length < 128) := by omega
  have c2 : ¬ (128 + 55 + (beBytes b.length).length ≤ 183) := by omega
  have c3 : 128 + 55 + (beBytes b.length).length ≤ 191 := by omega
  have c4 : 128 + 55 + (beBytes b.length).length - 183 = (beBytes b.length).length := by
    omega
  have c5 : ¬ ((beBytes b.length ++ (b ++ rest)).length < (beBytes b.length).length) := by
    simp only [List.length_append]
    omega
  have c6 : (beBytes b.length ++ (b ++ rest)).take (beBytes b.length).length =
      beBytes b.length := List.take_left _ _
  have c7 : (beBytes b.length ++ (b ++ rest)).drop (beBytes b.length).length =
      b ++ rest := List.drop_left _ _
  have c8 : ¬ ((beBytes b.length).headD 0 = 0) := beBytes_head_ne_zero _ hpos
  have c9 : beVal (beBytes b.length) = b.length := beVal_beBytes _
  have c10 : ¬ ((b ++ rest).length < b.length) := by
    simp only [List.length_append]
    omega
  simp only [rlpDecodeOne, c1, c2, c3, c4, c5, c6, c7, c8, c9, c10, h56,
    if_false, if_true, ite_true, ite_false, List.take_left, List.drop_left]

theorem rlpDecodeOne_list_short (fuel : Nat) (items : List RLPItem) (rest : List Nat)
    (h55 : (rlpEncodeList items).length ≤ 55)
    (hmany : rlpDecodeMany fuel (rlpEncodeList items) = some items) :
    rlpDecodeOne (fuel + 1)
      ((192 + (rlpEncodeList items).length) :: (rlpEncodeList items ++ rest)) =
      some (.list items, rest) := by
  have c1 : ¬ (192 + (rlpEncodeList items).length < 128) := by omega
  have c2 : ¬ (192 + (rlpEncodeList items).length ≤ 183) := by omega
  have c3 : ¬ (192 + (rlpEncodeList items).length ≤ 191) := by omega
  have c4 : 192 + (rlpEncodeList items).length ≤ 247 := by omega
  have c5 : 192 + (rlpEncodeList items).length - 192 = (rlpEncodeList items).length := by
    omega
  have c6 : ¬ ((rlpEncodeList items ++ rest).length < (rlpEncodeList items).length) := by
    simp only [List.length_append]
    omega
  simp only [rlpDecodeOne, c1, c2, c3, c4, c5, c6, if_false, if_true, ite_true,
    ite_false, List.take_left, List.drop_left, hmany]

theorem rlpDecodeOne_list_long (fuel : Nat) (items : List RLPItem) (rest : List Nat)
    (h56 : ¬ (rlpEncodeList items).length ≤ 55)
    (h64 : (rlpEncodeList items).length < 2 ^ 64)
    (hmany : rlpDecodeMany fuel (rlpEncodeList items) = some items) :
    rlpDecodeOne (fuel + 1)
      ((192 + 55 + (beBytes (rlpEncodeList items).length).length) ::
        (beBytes (rlpEncodeList items).length ++ (rlpEncodeList items ++ rest))) =
      some (.list items, rest) := by
  set P := rlpEncodeList items with hP
  have hpos : 0 < P.length := by omega
  have hll1 : 1 ≤ (beBytes P.length).length := beBytes_length_pos _ hpos
  have hll8 : (beBytes P.length).length ≤ 8 := by
    apply beBytes_length_le 8
    norm_num
    exact h64
  have c1 : ¬ (192 + 55 + (beBytes P.length).length < 128) := by omega
  have c2 : ¬ (192 + 55 + (beBytes P.length).length ≤ 183) := by omega
  have c3 : ¬ (192 + 55 + (beBytes P.length).length ≤ 191) := by omega
  have c4 : ¬ (192 + 55 + (beBytes P.length).length ≤ 247) := by omega
  have c5 : 192 + 55 + (beBytes P.length).length - 247 = (beBytes P.length).length := by
    omega
  have c6 : ¬ ((beBytes P.length ++ (P ++ rest)).length < (beBytes P.length).length) := by
    simp only [List.length_append]
    omega
  have c7 : (beBytes P.length ++ (P ++ rest)).take (beBytes P.length).length =
      beBytes P.length := List.take_left _ _
  have c8 : (beBytes P.length ++ (P ++ rest)).drop (beBytes P.length).length =
      P ++ rest := List.drop_left _ _
  have c9 : ¬ ((beBytes P.length).headD 0 = 0) := beBytes_head_ne_zero _ hpos
  have c10 : beVal (beBytes P.length) = P.length := beVal_beBytes _
  have c11 : ¬ ((P ++ rest).length < P.length) := by
    simp only [List.length_append]
    omega
  simp only [rlpDecodeOne, c1, c2, c3, c4, c5, c6, c7, c8, c9, c10, c11, h56,
    if_false, if_true, ite_true, ite_false, List.take_left, List.drop_left, hmany]

theorem encodeLength_length_pos (base len : Nat) : 0 < (encodeLength base len).length := by
  unfold encodeLength
  split <;> simp

theorem rlp_roundtrip_aux : ∀ fuel : Nat,
    (∀ (x : RLPItem) (rest : List Nat), RLPItem.wf x = true →
      2 * (rlpEncode x).length ≤ fuel →
      rlpDecodeOne fuel (rlpEncode x ++ rest) = some (x, rest)) ∧
    (∀ xs : List RLPItem, RLPItem.wfList xs = true →
      2 * (rlpEncodeList xs).length + 1 ≤ fuel →
      rlpDecodeMany fuel (rlpEncodeList xs) = some xs) := by
  intro fuel
  induction fuel with
  | zero =>
    constructor
    · intro x rest _ hf
      have := rlpEncode_length_pos x
      omega
    · intro xs _ hf
      omega
  | succ f ih =>
    constructor
    · intro x rest hwf hf
      match x with
      | .bytes [c] =>
        rcases Nat.lt_or_ge c 128 with hc | hc
        · rw [show rlpEncode (.bytes [c]) = [c] by simp [rlpEncode, hc],
            List.singleton_append]
          exact rlpDecodeOne_single_small f c rest hc
        · rw [show rlpEncode (.bytes [c]) = [129, c] by
            simp [rlpEncode, Nat.not_lt.mpr hc, encodeLength]]
          exact rlpDecodeOne_single_big f c rest hc
      | .bytes [] =>
        simpa using rlpDecodeOne_bytes_short f [] rest (by simp) (by simp)
      | .bytes (c₁ :: c₂ :: t) =>
        have hb64 : (c₁ :: c₂ :: t).length < 2 ^ 64 := by
          simpa [RLPItem.wf] using hwf
        have h1 : (c₁ :: c₂ :: t).length ≠ 1 := by simp
        by_cases h55 : (c₁ :: c₂ :: t).length ≤ 55
        · rw [rlpEncode_bytes_eq _ h1, encodeLength_short _ _ h55, List.append_assoc,
            List.singleton_append]
          exact rlpDecodeOne_bytes_short f _ rest h55 h1
        · rw [rlpEncode_bytes_eq _ h1, encodeLength_long _ _ h55, List.cons_append,
            List.cons_append, List.append_assoc]
          exact rlpDecodeOne_bytes_long f _ rest h55 hb64
      | .list items =>
        have hwf' : (rlpEncodeList items).length < 2 ^ 64 ∧ RLPItem.wfList items = true := by
          simpa [RLPItem.wf] using hwf
        have hhdr : 0 < (encodeLength 192 (rlpEncodeList items).length).length :=
          encodeLength_length_pos _ _
        have hencLen : (rlpEncode (.list items)).length =
            (encodeLength 192 (rlpEncodeList items).length).length +
              (rlpEncodeList items).length := by
          rw [rlpEncode_list_eq]
          simp
        have hmany : rlpDecodeMany f (rlpEncodeList items) = some items :=
          ih.2 items hwf'.2 (by omega)
        by_cases h55 : (rlpEncodeList items).length ≤ 55
        · rw [rlpEncode_list_eq, encodeLength_short _ _ h55, List.append_assoc,
            List.singleton_append]
          exact rlpDecodeOne_list_short f items rest h55 hmany
        · rw [rlpEncode_list_eq, encodeLength_long _ _ h55, List.cons_append,
            List.cons_append, List.append_assoc]
          exact rlpDecodeOne_list_long f items rest h55 hwf'.1 hmany
    · intro xs hwf hf
      match xs with
      | [] => rfl
      | x :: xs' =>
        have hwx : RLPItem.wf x = true ∧ RLPItem.wfList xs' = true := by
          simpa [RLPItem.wfList] using hwf
        have hA : 1 ≤ (rlpEncode x).length := rlpEncode_length_pos x
        have hlen : (rlpEncodeList (x :: xs')).length =
            (rlpEncode x).length + (rlpEncodeList xs').length := by
          simp [rlpEncodeList]
        have hone : rlpDecodeOne f (rlpEncode x ++ rlpEncodeList xs') =
            some (x, rlpEncodeList xs') := ih.1 x _ hwx.1 (by omega)
        have hmany : rlpDecodeMany f (rlpEncodeList xs') = some xs' :=
          ih.2 xs' hwx.2 (by omega)
        obtain ⟨c, cs, hcons⟩ : ∃ c cs, rlpEncode x ++ rlpEncodeList xs' = c :: cs := by
          cases hE : rlpEncode x with
          | nil => exact absurd hE (rlpEncode_ne_nil x)
          | cons c cs => exact ⟨c, cs ++ rlpEncodeList xs', by simp [hE]⟩
        show rlpDecodeMany (f + 1) (rlpEncodeList (x :: xs')) = some (x :: xs')
        rw [show rlpEncodeList (x :: xs') = rlpEncode x ++ rlpEncodeList xs' from rfl,
          hcons]
        rw [hcons] at hone
        simp [rlpDecodeMany, hone, hmany]

/-- Decoding inverts encoding on every well-formed RLP item. -/
theorem rlpDecode_rlpEncode (x : RLPItem) (h : RLPItem.wf x = true) :
    rlpDecode (rlpEncode x) = some x := by
  unfold rlpDecode
  have haux := (rlp_roundtrip_aux (2 * (rlpEncode x).length)).1 x [] h (le_refl _)
  rw [List.append_nil] at haux
  rw [haux]

/-- `src/model.py` `BasetTxParams`: base EIP-1559 transaction parameters.
Field names follow the stored Python attribute names (`gas_tip` / `gas_fee`
hold the `gas_tip_cap` / `gas_fee_cap` constructor arguments). -/
structure BasetTxParams where
  chain_id : Nat
  nonce : Nat
  gas : Nat
  gas_tip : Nat
  gas_fee : Nat
  «to» : List Nat
  data : List Nat
  value : Nat

/-- `src/model.py` `BlobTx`: an EIP-4844 type-3 transaction. `acc_list`
is the caller-supplied list of already-encoded access tuples and
`blob_hashes` the list of versioned hashes; the blob/commitment/proof
sidecar is not a field of this class at all. -/
structure BlobTx where
  tx_params : BasetTxParams
  acc_list : List RLPItem
  blob_fee_cap : Nat
  blob_hashes : List (List Nat)

/-- The ordered unsigned-field list literal inside `BlobTx.hash` and
`BlobTx.encode_with_sig` in `src/model.py`. -/
def BlobTx.fieldList (tx : BlobTx) : List RLPItem :=
  [RLP.ofNat tx.tx_params.chain_id, RLP.ofNat tx.tx_params.nonce,
   RLP.ofNat tx.tx_params.gas_tip, RLP.ofNat tx.tx_params.gas_fee,
   RLP.ofNat tx.tx_params.gas, .bytes tx.tx_params.to,
   RLP.ofNat tx.tx_params.value, .bytes tx.tx_params.data,
   .list tx.acc_list, RLP.ofNat tx.blob_fee_cap,
   .list (tx.blob_hashes.map RLPItem.bytes)]

/-- `BlobTx.hash`: `keccak(b'\x03' + rlp.encode([...unsigned fields...]))`.
`keccak` is the external hash function (eth-hash), passed as a parameter. -/
def BlobTx.hash (keccak : List Nat → List Nat) (tx : BlobTx) : List Nat :=
  keccak (3 :: rlpEncode (.list tx.fieldList))

/-- `BlobTx.encode_with_sig`: `b'\x03' + rlp.encode([...fields..., v, r, s])`.
No hash function is involved. -/
def BlobTx.encode_with_sig (tx : BlobTx) (v : Nat) (r s : List Nat) : List Nat :=
  3 :: rlpEncode (.list (tx.fieldList ++ [RLP.ofNat v, .bytes r, .bytes s]))

/-- The result object of the injected signing function (`signed_msg` in
`SetCodeAuthorization.__init__`): recovery id `v` and integer signature
components `r` and `s`. -/
structure SignedMsg where
  v : Nat
  r : Nat
  s : Nat

/-- The digest computed and signed inside `SetCodeAuthorization.__init__`:
`keccak(b'\x05' + rlp.encode([chain_id, addr, nonce]))`. -/
def authSigningHash (keccak : List Nat → List Nat) (chain_id : Nat) (addr : List Nat)
    (nonce : Nat) : List Nat :=
  keccak (5 :: rlpEncode (.list [RLP.ofNat chain_id, .bytes addr, RLP.ofNat nonce]))

/-- `src/model.py` `SetCodeAuthorization`: stored attributes. -/
structure SetCodeAuthorization where
  chain_id : Nat
  addr : List Nat
  nonce : Nat
  r : Nat
  s : Nat
  v : Nat

/-- `SetCodeAuthorization.__init__`: RLP-encode the triple, hash it under
the `0x05` domain byte, invoke the injected signing function on the digest,
and store the returned `r`, `s`, `v` unmodified. -/
def SetCodeAuthorization.make (keccak : List Nat → List Nat) (chain_id : Nat)
    (addr : List Nat) (nonce : Nat) (signing_function : List Nat → SignedMsg) :
    SetCodeAuthorization :=
  let hashed := authSigningHash keccak chain_id addr nonce
  let signed_msg := signing_function hashed
  { chain_id := chain_id, addr := addr, nonce := nonce,
    r := signed_msg.r, s := signed_msg.s, v := signed_msg.v }

/-- `SetCodeAuthorization.encode`: the source returns
`[self.chain_id, self.addr, self.nonce, '\x01', self.r, self.s]`. The
fourth entry is the literal one-character string `'\x01'` (pyrlp's `text`
sedes serializes a `str` via UTF-8, so it is the byte string `[1]`), not
the stored `self.v`. -/
def SetCodeAuthorization.encode (a : SetCodeAuthorization) : List RLPItem :=
  [RLP.ofNat a.chain_id, .bytes a.addr, RLP.ofNat a.nonce, .bytes [1],
   RLP.ofNat a.r, RLP.ofNat a.s]

/-- `src/model.py` `SetCodeTx`: an EIP-7702-style type-4 transaction.
`set_code_auth_list` is the caller-supplied list of encoded authorization
records. -/
structure SetCodeTx where
  tx_params : BasetTxParams
  acc_list : List RLPItem
  set_code_auth_list : List RLPItem

/-- The ordered unsigned-field list literal inside `SetCodeTx.hash` and
`SetCodeTx.encode_with_sig` in `src/model.py`. -/
def SetCodeTx.fieldList (tx : SetCodeTx) : List RLPItem :=
  [RLP.ofNat tx.tx_params.chain_id, RLP.ofNat tx.tx_params.nonce,
   RLP.ofNat tx.tx_params.gas_tip, RLP.ofNat tx.tx_params.gas_fee,
   RLP.ofNat tx.tx_params.gas, .bytes tx.tx_params.to,
   RLP.ofNat tx.tx_params.value, .bytes tx.tx_params.data,
   .list tx.acc_list, .list tx.set_code_auth_list]

/-- `SetCodeTx.hash`: `keccak(b'\x04' + rlp.encode([...unsigned fields...]))`. -/
def SetCodeTx.hash (keccak : List Nat → List Nat) (tx : SetCodeTx) : List Nat :=
  keccak (4 :: rlpEncode (.list tx.fieldList))

/-- `SetCodeTx.encode_with_sig`: `b'\x04' + rlp.encode([...fields..., v, r, s])`. -/
def SetCodeTx.encode_with_sig (tx : SetCodeTx) (v : Nat) (r s : List Nat) : List Nat :=
  4 :: rlpEncode (.list (tx.fieldList ++ [RLP.ofNat v, .bytes r, .bytes s]))

/-- The keccak preimage of `BlobTx.hash`: `b'\x03' + rlp.encode([...])`. -/
def BlobTx.sigPreimage (tx : BlobTx) : List Nat :=
  3 :: rlpEncode (.list tx.fieldList)

/-- The keccak preimage of `SetCodeTx.hash`: `b'\x04' + rlp.encode([...])`. -/
def SetCodeTx.sigPreimage (tx : SetCodeTx) : List Nat :=
  4 :: rlpEncode (.list tx.fieldList)

/-- The keccak preimage of the authorization digest:
`b'\x05' + rlp.encode([chain_id, addr, nonce])`. -/
def authPreimage (chain_id : Nat) (addr : List Nat) (nonce : Nat) : List Nat :=
  5 :: rlpEncode (.list [RLP.ofNat chain_id, .bytes addr, RLP.ofNat nonce])

/-- `src/keys.py` `CHAIN_ID_OFFSET`. -/
def CHAIN_ID_OFFSET : Int := 35

/-- `src/keys.py` `V_OFFSET`. -/
def V_OFFSET : Int := 27

/-- `src/keys.py` `to_eth_v`: chain-id adjustment of a raw recovery id.
`none` models the Python default `chain_id=None`. The `none` branch is the
source's `v = v_raw - V_OFFSET` line, verbatim. -/
def to_eth_v (v_raw : Int) (chain_id : Option Int) : Int :=
  match chain_id with
  | none => v_raw - V_OFFSET
  | some c => v_raw + CHAIN_ID_OFFSET + 2 * c

/-- `src/blob.py` `BYTES_PER_FIELD_ELEMENT`. -/
def BYTES_PER_FIELD_ELEMENT : Nat := 32

/-- `src/blob.py` `FIELD_ELEMENTS_PER_BLOB`. -/
def FIELD_ELEMENTS_PER_BLOB : Nat := 4096

/-- `src/blob.py` `BLOB_FULL_SIZE_BYTES = 4096 * 32 = 131072`. -/
def BLOB_FULL_SIZE_BYTES : Nat := FIELD_ELEMENTS_PER_BLOB * BYTES_PER_FIELD_ELEMENT

/-- `src/blob.py` `VERSIONED_HASH_VERSION_KZG = 0x01`. -/
def VERSIONED_HASH_VERSION_KZG : Nat := 1

/-- `src/blob.py` `prepare_blob_data`, taken after the UTF-8 encoding of
the input string: reject data longer than a blob (`ValueError`, modelled
as `Except.error`), otherwise right-pad with zero bytes to exactly
`BLOB_FULL_SIZE_BYTES`. -/
def prepare_blob_data (encoded_data : List Nat) : Except String (List Nat) :=
  if BLOB_FULL_SIZE_BYTES < encoded_data.length then
    Except.error "Input data too large for a single blob"
  else
    Except.ok (encoded_data ++
      List.replicate (BLOB_FULL_SIZE_BYTES - encoded_data.length) 0)

/-- `src/blob.py` `kzg_to_versioned_hash`: version byte `0x01` followed by
all but the first byte of SHA-256 of the commitment. `sha256` is the
external hash function (hashlib), passed as a parameter. -/
def kzg_to_versioned_hash (sha256 : List Nat → List Nat)
    (kzg_commitment : List Nat) : List Nat :=
  VERSIONED_HASH_VERSION_KZG :: (sha256 kzg_commitment).drop 1

/-- A deterministic 32-byte stand-in for an external hash function, used
to instantiate the hash parameter at concrete inputs. -/
def stubHash (x : List Nat) : List Nat := List.replicate 31 0 ++ [x.length % 256]

theorem stubHash_length (x : List Nat) : (stubHash x).length = 32 := by
  simp [stubHash]

/-- Concrete base parameters for evaluating the envelope operations. -/
def sampleParams : BasetTxParams :=
  ⟨1337, 0, 21000, 2, 100, List.replicate 20 0, [], 5⟩

/-- A concrete blob transaction with one 32-byte versioned hash. -/
def sampleBlobTx : BlobTx := ⟨sampleParams, [], 7, [1 :: List.replicate 31 2]⟩

/-- A concrete set-code transaction with an empty authorization list. -/
def sampleSetCodeTx : SetCodeTx := ⟨sampleParams, [], []⟩

/-- A concrete signing function returning recovery id 0 (a valid signer
output: half of all signatures have parity 0). -/
def sampleSigner : List Nat → SignedMsg := fun _ => ⟨0, 11, 22⟩

/-- A concrete authorization built through `SetCodeAuthorization.make`. -/
def sampleAuth : SetCodeAuthorization :=
  SetCodeAuthorization.make stubHash 1 (List.replicate 20 9) 7 sampleSigner

set_option maxRecDepth 100000 in
/-- C1 (counterexample): at a concrete blob envelope and a concrete
32-byte hash function, `hash()` does not return the type tag concatenated
with the hash of the canonical encoding of the field list: the code hashes
the tag together with the encoding, so its output is a bare 32-byte digest
while the claimed form has 33 bytes. -/
theorem blobTx_hash_no_outer_tag_cx :
    BlobTx.hash stubHash sampleBlobTx ≠
      3 :: stubHash (rlpEncode (.list sampleBlobTx.fieldList)) := by
  decide

/-- C1 (amended): for every Blob and SetCode envelope, `hash()` returns
`hash(TYPE_TAG || CanonicalEncode(fields))`: the one-byte variant tag is
prepended to the canonical encoding of the ordered unsigned-field list
before hashing, and the bare digest is returned. -/
theorem signing_hash_hashes_tagged_encoding (keccak : List Nat → List Nat)
    (tx : BlobTx) (tx' : SetCodeTx) :
    BlobTx.hash keccak tx = keccak (3 :: rlpEncode (.list tx.fieldList)) ∧
    SetCodeTx.hash keccak tx' = keccak (4 :: rlpEncode (.list tx'.fieldList)) :=
  ⟨rfl, rfl⟩

/-- C2: for every Blob or SetCode envelope and every signature `(v, r, s)`,
`encode_with_sig` returns exactly `TYPE_TAG || CanonicalEncode(fields ++
[v, r, s])`: the variant field list in order with the three signature
components appended, the tag byte prepended outside the encoding, and no
hash function involved anywhere (the function takes none). -/
theorem finalize_is_pure_reserialization (tx : BlobTx) (tx' : SetCodeTx)
    (v : Nat) (r s : List Nat) :
    tx.encode_with_sig v r s =
      3 :: rlpEncode (.list (tx.fieldList ++ [RLP.ofNat v, .bytes r, .bytes s])) ∧
    tx'.encode_with_sig v r s =
      4 :: rlpEncode (.list (tx'.fieldList ++ [RLP.ofNat v, .bytes r, .bytes s])) :=
  ⟨rfl, rfl⟩

/-- C3: the Blob signing hash is computed over exactly the ordered field
list `[chain_id, nonce, gas_tip_cap, gas_fee_cap, gas_limit, to, value,
data, access_list, blob_fee_cap, blob_versioned_hashes]` under tag `0x03`
(the `BlobTx` model carries no blob/commitment/proof sidecar at all, so
none can enter the preimage), and the SetCode signing hash over exactly
`[chain_id, nonce, gas_tip_cap, gas_fee_cap, gas_limit, to, value, data,
access_list, authorization_list]` under tag `0x04`. -/
theorem signing_hash_field_order_and_tags (keccak : List Nat → List Nat)
    (tx : BlobTx) (tx' : SetCodeTx) :
    BlobTx.hash keccak tx =
      keccak (3 :: rlpEncode (RLPItem.list
        [RLP.ofNat tx.tx_params.chain_id, RLP.ofNat tx.tx_params.nonce,
         RLP.ofNat tx.tx_params.gas_tip, RLP.ofNat tx.tx_params.gas_fee,
         RLP.ofNat tx.tx_params.gas, RLPItem.bytes tx.tx_params.to,
         RLP.ofNat tx.tx_params.value, RLPItem.bytes tx.tx_params.data,
         RLPItem.list tx.acc_list, RLP.ofNat tx.blob_fee_cap,
         RLPItem.list (tx.blob_hashes.map RLPItem.bytes)])) ∧
    SetCodeTx.hash keccak tx' =
      keccak (4 :: rlpEncode (RLPItem.list
        [RLP.ofNat tx'.tx_params.chain_id, RLP.ofNat tx'.tx_params.nonce,
         RLP.ofNat tx'.tx_params.gas_tip, RLP.ofNat tx'.tx_params.gas_fee,
         RLP.ofNat tx'.tx_params.gas, RLPItem.bytes tx'.tx_params.to,
         RLP.ofNat tx'.tx_params.value, RLPItem.bytes tx'.tx_params.data,
         RLPItem.list tx'.acc_list, RLPItem.list tx'.set_code_auth_list])) :=
  ⟨rfl, rfl⟩

set_option maxRecDepth 100000 in
/-- C4 (code evaluated at the failing input): an authorization built with
a signer returning recovery id 0 stores `(v, r, s) = (0, 11, 22)`
unmodified, but `encode` places the constant byte string `[1]` (the
literal `'\x01'` of the source) in the fourth position instead of the
stored `v`, so the encoded record is not
`[chain_id, address, nonce, v, r, s]`. -/
theorem setCodeAuthorization_encode_hardcodes_x01 :
    sampleAuth.v = 0 ∧ sampleAuth.r = 11 ∧ sampleAuth.s = 22 ∧
    sampleAuth.encode =
      [RLP.ofNat 1, .bytes (List.replicate 20 9), RLP.ofNat 7, .bytes [1],
       RLP.ofNat 11, RLP.ofNat 22] ∧
    sampleAuth.encode ≠
      [RLP.ofNat sampleAuth.chain_id, .bytes sampleAuth.addr,
       RLP.ofNat sampleAuth.nonce, RLP.ofNat sampleAuth.v,
       RLP.ofNat sampleAuth.r, RLP.ofNat sampleAuth.s] := by
  refine ⟨rfl, rfl, rfl, rfl, ?_⟩
  decide

/-- C5 (code evaluated at the failing input): with no chain id supplied,
`to_eth_v` computes `v_raw - 27` instead of the documented `27 + v_raw`,
yielding `-27` and `-26` for the raw recovery ids 0 and 1; the
chain-id-supplied branch does match `35 + 2 * chain_id + v_raw`. -/
theorem to_eth_v_no_chain_id_negative :
    to_eth_v 0 none = -27 ∧ to_eth_v 1 none = -26 ∧
    (∀ v_raw chain_id : Int,
      to_eth_v v_raw (some chain_id) = 35 + 2 * chain_id + v_raw) ∧
    to_eth_v 0 none ≠ 27 + 0 := by
  refine ⟨by decide, by decide, ?_, by decide⟩
  intro v_raw chain_id
  simp only [to_eth_v, CHAIN_ID_OFFSET]
  ring

/-- C6: `prepare_blob_data` on data of at most `BLOB_FULL_SIZE_BYTES`
(131072) bytes returns a blob of exactly `BLOB_FULL_SIZE_BYTES` bytes
whose prefix is the data and whose remainder is all zero bytes; on longer
data it fails with the oversized-input error and produces no blob. -/
theorem prepare_blob_data_pads_or_rejects (data : List Nat) :
    (data.length ≤ BLOB_FULL_SIZE_BYTES →
      ∃ out, prepare_blob_data data = Except.ok out ∧
        out.length = BLOB_FULL_SIZE_BYTES ∧
        out.take data.length = data ∧
        out.drop data.length =
          List.replicate (BLOB_FULL_SIZE_BYTES - data.length) 0) ∧
    (BLOB_FULL_SIZE_BYTES < data.length →
      prepare_blob_data data =
        Except.error "Input data too large for a single blob") := by
  constructor
  · intro h
    refine ⟨data ++ List.replicate (BLOB_FULL_SIZE_BYTES - data.length) 0,
      ?_, ?_, List.take_left _ _, List.drop_left _ _⟩
    · unfold prepare_blob_data
      rw [if_neg (Nat.not_lt.mpr h)]
    · simp only [List.length_append, List.length_replicate]
      omega
  · intro h
    unfold prepare_blob_data
    rw [if_pos h]

/-- C6 (witness): `prepare_blob_data_pads_or_rejects` applied at the
3-byte input `[1, 2, 3]` and at an oversized 131073-byte input. -/
theorem prepare_blob_data_pads_or_rejects_inst :
    ([1, 2, 3].length ≤ BLOB_FULL_SIZE_BYTES ∧
      ∃ out, prepare_blob_data [1, 2, 3] = Except.ok out ∧
        out.length = BLOB_FULL_SIZE_BYTES ∧
        out.take [1, 2, 3].length = [1, 2, 3] ∧
        out.drop [1, 2, 3].length =
          List.replicate (BLOB_FULL_SIZE_BYTES - [1, 2, 3].length) 0) ∧
    (BLOB_FULL_SIZE_BYTES < (List.replicate 131073 6).length ∧
      prepare_blob_data (List.replicate 131073 6) =
        Except.error "Input data too large for a single blob") :=
  ⟨⟨by decide, (prepare_blob_data_pads_or_rejects [1, 2, 3]).1 (by decide)⟩,
   ⟨by
      rw [List.length_replicate]
      norm_num [BLOB_FULL_SIZE_BYTES, FIELD_ELEMENTS_PER_BLOB, BYTES_PER_FIELD_ELEMENT],
    (prepare_blob_data_pads_or_rejects (List.replicate 131073 6)).2
      (by
        rw [List.length_replicate]
        norm_num [BLOB_FULL_SIZE_BYTES, FIELD_ELEMENTS_PER_BLOB,
          BYTES_PER_FIELD_ELEMENT])⟩⟩

/-- C7: for every commitment `c` (in particular every 48-byte one) and
every 32-byte hash function in the SHA-256 slot, `kzg_to_versioned_hash`
returns a 32-byte value whose first byte is the fixed version tag `0x01`
and whose remaining 31 bytes are bytes 1..31 of the hash of `c`. -/
theorem kzg_to_versioned_hash_spec (sha256 : List Nat → List Nat)
    (kzg_commitment : List Nat) (h32 : ∀ x, (sha256 x).length = 32) :
    (kzg_to_versioned_hash sha256 kzg_commitment).length = 32 ∧
    (kzg_to_versioned_hash sha256 kzg_commitment).headD 0 = 1 ∧
    (kzg_to_versioned_hash sha256 kzg_commitment).drop 1 =
      (sha256 kzg_commitment).drop 1 := by
  refine ⟨?_, rfl, rfl⟩
  have h := h32 kzg_commitment
  simp [kzg_to_versioned_hash, List.length_drop, h]

/-- C7 (witness): `kzg_to_versioned_hash_spec` applied to the stub hash
and a concrete 48-byte commitment. -/
theorem kzg_to_versioned_hash_spec_inst :
    (∀ x : List Nat, (stubHash x).length = 32) ∧
    ((kzg_to_versioned_hash stubHash (List.replicate 48 2)).length = 32 ∧
     (kzg_to_versioned_hash stubHash (List.replicate 48 2)).headD 0 = 1 ∧
     (kzg_to_versioned_hash stubHash (List.replicate 48 2)).drop 1 =
       (stubHash (List.replicate 48 2)).drop 1) :=
  ⟨fun x => stubHash_length x,
   kzg_to_versioned_hash_spec stubHash (List.replicate 48 2)
     (fun x => stubHash_length x)⟩

/-- C8: the authorization signing digest is the protocol hash of the fixed
one-byte domain tag `0x05` prepended to the canonical encoding of
`[chain_id, address, nonce]`, and since that tag differs from the
transaction type tags `0x03` and `0x04`, no authorization digest preimage
equals a Blob or SetCode signing-hash preimage. -/
theorem auth_digest_domain_separated (keccak : List Nat → List Nat)
    (chain_id : Nat) (addr : List Nat) (nonce : Nat)
    (tx : BlobTx) (tx' : SetCodeTx) :
    authSigningHash keccak chain_id addr nonce =
      keccak (authPreimage chain_id addr nonce) ∧
    authPreimage chain_id addr nonce =
      5 :: rlpEncode (.list [RLP.ofNat chain_id, .bytes addr, RLP.ofNat nonce]) ∧
    authPreimage chain_id addr nonce ≠ BlobTx.sigPreimage tx ∧
    authPreimage chain_id addr nonce ≠ SetCodeTx.sigPreimage tx' := by
  refine ⟨rfl, rfl, ?_, ?_⟩ <;>
    simp [authPreimage, BlobTx.sigPreimage, SetCodeTx.sigPreimage]

/-- C9: stripping the leading type-tag byte from the `encode_with_sig`
output of a Blob or SetCode envelope and canonically decoding the
remainder reconstructs exactly the envelope's ordered field list followed
by `v`, `r`, `s` as supplied (for every wire-format-sized envelope). -/
theorem finalize_roundtrip (tx : BlobTx) (tx' : SetCodeTx) (v : Nat) (r s : List Nat)
    (hw : RLPItem.wf (.list (tx.fieldList ++ [RLP.ofNat v, .bytes r, .bytes s])) = true)
    (hw' : RLPItem.wf (.list (tx'.fieldList ++ [RLP.ofNat v, .bytes r, .bytes s])) = true) :
    rlpDecode ((tx.encode_with_sig v r s).drop 1) =
      some (.list (tx.fieldList ++ [RLP.ofNat v, .bytes r, .bytes s])) ∧
    rlpDecode ((tx'.encode_with_sig v r s).drop 1) =
      some (.list (tx'.fieldList ++ [RLP.ofNat v, .bytes r, .bytes s])) :=
  ⟨rlpDecode_rlpEncode _ hw, rlpDecode_rlpEncode _ hw'⟩

set_option maxRecDepth 400000 in
/-- C9 (witness): `finalize_roundtrip` applied to the concrete sample
envelopes with `v = 1` and 32-byte `r` and `s`. -/
theorem finalize_roundtrip_inst :
    (RLPItem.wf (.list (sampleBlobTx.fieldList ++
        [RLP.ofNat 1, .bytes (List.replicate 32 3), .bytes (List.replicate 32 4)])) = true ∧
     RLPItem.wf (.list (sampleSetCodeTx.fieldList ++
        [RLP.ofNat 1, .bytes (List.replicate 32 3), .bytes (List.replicate 32 4)])) = true) ∧
    (rlpDecode ((sampleBlobTx.encode_with_sig 1 (List.replicate 32 3)
        (List.replicate 32 4)).drop 1) =
      some (.list (sampleBlobTx.fieldList ++
        [RLP.ofNat 1, .bytes (List.replicate 32 3), .bytes (List.replicate 32 4)])) ∧
     rlpDecode ((sampleSetCodeTx.encode_with_sig 1 (List.replicate 32 3)
        (List.replicate 32 4)).drop 1) =
      some (.list (sampleSetCodeTx.fieldList ++
        [RLP.ofNat 1, .bytes (List.replicate 32 3), .bytes (List.replicate 32 4)]))) :=
  ⟨⟨by decide, by decide⟩,
   finalize_roundtrip sampleBlobTx sampleSetCodeTx 1 (List.replicate 32 3)
     (List.replicate 32 4) (by decide) (by decide)⟩

/-- C10: for every Blob and SetCode envelope, `hash()` returns exactly one
32-byte digest of the external hash function: the variant type tag (`0x03`
or `0x04`) is the first byte of the hash preimage, not prepended to the
returned value. -/
theorem hash_returns_bare_digest (keccak : List Nat → List Nat)
    (tx : BlobTx) (tx' : SetCodeTx) (h32 : ∀ x, (keccak x).length = 32) :
    (BlobTx.hash keccak tx).length = 32 ∧
    BlobTx.hash keccak tx = keccak (BlobTx.sigPreimage tx) ∧
    (BlobTx.sigPreimage tx).headD 0 = 3 ∧
    (SetCodeTx.hash keccak tx').length = 32 ∧
    SetCodeTx.hash keccak tx' = keccak (SetCodeTx.sigPreimage tx') ∧
    (SetCodeTx.sigPreimage tx').headD 0 = 4 :=
  ⟨h32 _, rfl, rfl, h32 _, rfl, rfl⟩

/-- C10 (witness): `hash_returns_bare_digest` applied to the stub hash and
the concrete sample envelopes. -/
theorem hash_returns_bare_digest_inst :
    (∀ x : List Nat, (stubHash x).length = 32) ∧
    ((BlobTx.hash stubHash sampleBlobTx).length = 32 ∧
     BlobTx.hash stubHash sampleBlobTx = stubHash (BlobTx.sigPreimage sampleBlobTx) ∧
     (BlobTx.sigPreimage sampleBlobTx).headD 0 = 3 ∧
     (SetCodeTx.hash stubHash sampleSetCodeTx).length = 32 ∧
     SetCodeTx.hash stubHash sampleSetCodeTx =
       stubHash (SetCodeTx.sigPreimage sampleSetCodeTx) ∧
     (SetCodeTx.sigPreimage sampleSetCodeTx).headD 0 = 4) :=
  ⟨fun x => stubHash_length x,
   hash_returns_bare_digest stubHash sampleBlobTx sampleSetCodeTx
     (fun x => stubHash_length x)⟩
